import Mathlib

/-!
Verification development for a small path-tracing renderer written in Rust.

The Rust sources are embedded shallowly:
* f64 values are modelled as real numbers; f64 infinity appears only as an
  interval bound, so interval bounds live in EReal while all arithmetic on
  coordinates, colors and ray parameters stays in the reals;
* the process-wide random source is modelled as an explicit oracle argument
  (a stream of draws), one draw record per scatter event;
* the retry loop of random_point_in_unit_sphere is modelled with explicit
  fuel, returning none when the fuel runs out;
* Rust Option maps to Option, bool fields to Prop fields.

Definition names follow the source (geom.rs, color.rs, ray.rs, material.rs,
shapes/mod.rs) wherever Lean allows.
-/

noncomputable section

namespace RayTracing

/-! ## geom.rs: points and vectors -/

/-- A point in 3D Euclidean space (struct Point3 in geom.rs). -/
@[ext]
structure Point3 where
  x : ℝ
  y : ℝ
  z : ℝ

/-- A 3D vector in Euclidean space (struct Vector3 in geom.rs). -/
@[ext]
structure Vector3 where
  x : ℝ
  y : ℝ
  z : ℝ

namespace Vector3

/-- Vector addition (impl Add for Vector3). -/
instance : Add Vector3 :=
  ⟨fun u v => ⟨u.x + v.x, u.y + v.y, u.z + v.z⟩⟩

/-- Vector subtraction (impl Sub for Vector3). -/
instance : Sub Vector3 :=
  ⟨fun u v => ⟨u.x - v.x, u.y - v.y, u.z - v.z⟩⟩

/-- Vector negation (impl Neg for Vector3). -/
instance : Neg Vector3 :=
  ⟨fun v => ⟨-v.x, -v.y, -v.z⟩⟩

/-- Scalar multiplication (impl Mul of f64 and Vector3). -/
instance : SMul ℝ Vector3 :=
  ⟨fun a v => ⟨a * v.x, a * v.y, a * v.z⟩⟩

/-- Scalar division (impl Div for Vector3: multiplication by the inverse). -/
instance : HDiv Vector3 ℝ Vector3 :=
  ⟨fun v a => (1 / a) • v⟩

@[simp] theorem add_def (u v : Vector3) :
    u + v = ⟨u.x + v.x, u.y + v.y, u.z + v.z⟩ := rfl

@[simp] theorem sub_def (u v : Vector3) :
    u - v = ⟨u.x - v.x, u.y - v.y, u.z - v.z⟩ := rfl

@[simp] theorem neg_def (v : Vector3) : -v = ⟨-v.x, -v.y, -v.z⟩ := rfl

@[simp] theorem smul_def (a : ℝ) (v : Vector3) :
    a • v = ⟨a * v.x, a * v.y, a * v.z⟩ := rfl

@[simp] theorem div_def (v : Vector3) (a : ℝ) :
    v / a = ⟨1 / a * v.x, 1 / a * v.y, 1 / a * v.z⟩ := rfl

/-- Squared Euclidean length (Vector3::length_squared). -/
def length_squared (v : Vector3) : ℝ := v.x * v.x + v.y * v.y + v.z * v.z

/-- Euclidean norm (Vector3::norm). -/
def norm (v : Vector3) : ℝ := Real.sqrt v.length_squared

/-- Normalization to unit length (Vector3::to_unit_vector): divides each
component by the norm. -/
def to_unit_vector (v : Vector3) : Vector3 :=
  ⟨v.x / v.norm, v.y / v.norm, v.z / v.norm⟩

/-- Dot product (Vector3::dot). -/
def dot (u v : Vector3) : ℝ := u.x * v.x + u.y * v.y + u.z * v.z

/-- Reflection about a surface normal (Vector3::reflect). -/
def reflect (v n : Vector3) : Vector3 := v - (2 * v.dot n) • n

/-- Refraction via Snell law (Vector3::refract). -/
def refract (v n : Vector3) (etai_over_etat : ℝ) : Vector3 :=
  let cos_theta := (-v).dot n
  let r_out_perpendicular := etai_over_etat • (v + cos_theta • n)
  let r_out_parallel :=
    Real.sqrt |1 - r_out_perpendicular.length_squared| • (-n)
  r_out_perpendicular + r_out_parallel

@[simp] theorem length_squared_mk (a b c : ℝ) :
    length_squared ⟨a, b, c⟩ = a * a + b * b + c * c := rfl

@[simp] theorem dot_mk (a b c d e f : ℝ) :
    dot ⟨a, b, c⟩ ⟨d, e, f⟩ = a * d + b * e + c * f := rfl

theorem length_squared_nonneg (v : Vector3) : 0 ≤ v.length_squared := by
  have hx := mul_self_nonneg v.x
  have hy := mul_self_nonneg v.y
  have hz := mul_self_nonneg v.z
  unfold length_squared
  linarith

theorem eq_zero_of_length_squared_eq_zero {v : Vector3}
    (h : v.length_squared = 0) : v = ⟨0, 0, 0⟩ := by
  unfold length_squared at h
  have hx := mul_self_nonneg v.x
  have hy := mul_self_nonneg v.y
  have hz := mul_self_nonneg v.z
  have hx0 : v.x = 0 := by nlinarith
  have hy0 : v.y = 0 := by nlinarith
  have hz0 : v.z = 0 := by nlinarith
  ext <;> simp [hx0, hy0, hz0]

end Vector3

namespace Point3

/-- Point plus vector displacement (impl Add of Vector3 for Point3). -/
instance : HAdd Point3 Vector3 Point3 :=
  ⟨fun p v => ⟨p.x + v.x, p.y + v.y, p.z + v.z⟩⟩

/-- Point difference yields a vector (impl Sub of Point3 for Point3). -/
instance : HSub Point3 Point3 Vector3 :=
  ⟨fun p q => ⟨p.x - q.x, p.y - q.y, p.z - q.z⟩⟩

@[simp] theorem addv_def (p : Point3) (v : Vector3) :
    p + v = Point3.mk (p.x + v.x) (p.y + v.y) (p.z + v.z) := rfl

@[simp] theorem subp_def (p q : Point3) :
    p - q = Vector3.mk (p.x - q.x) (p.y - q.y) (p.z - q.z) := rfl

end Point3

/-! ## ray.rs -/

/-- A ray with an origin and a direction (struct Ray in ray.rs). -/
@[ext]
structure Ray where
  origin : Point3
  direction : Vector3

/-- Position along the ray at parameter t (Ray::at). -/
def Ray.at (r : Ray) (t : ℝ) : Point3 := r.origin + t • r.direction

/-! ## color.rs -/

/-- RGB color with real components (struct Color in color.rs). -/
@[ext]
structure Color where
  red : ℝ
  green : ℝ
  blue : ℝ

namespace Color

/-- Color addition (impl Add for Color). -/
instance : Add Color :=
  ⟨fun c d => ⟨c.red + d.red, c.green + d.green, c.blue + d.blue⟩⟩

/-- Scalar multiplication for colors (impl Mul of f64 and Color). -/
instance : SMul ℝ Color :=
  ⟨fun a c => ⟨a * c.red, a * c.green, a * c.blue⟩⟩

@[simp] theorem add_color_def (c d : Color) :
    c + d = ⟨c.red + d.red, c.green + d.green, c.blue + d.blue⟩ := rfl

@[simp] theorem smul_color_def (a : ℝ) (c : Color) :
    a • c = ⟨a * c.red, a * c.green, a * c.blue⟩ := rfl

/-- Elementwise (Hadamard) product (Color::mult). -/
def mult (c d : Color) : Color :=
  ⟨c.red * d.red, c.green * d.green, c.blue * d.blue⟩

@[simp] theorem mult_def (c d : Color) :
    c.mult d = ⟨c.red * d.red, c.green * d.green, c.blue * d.blue⟩ := rfl

/-- The constant Color::BLACK. -/
def BLACK : Color := ⟨0, 0, 0⟩

/-- The constant Color::WHITE. -/
def WHITE : Color := ⟨1, 1, 1⟩

end Color

/-- Clamping of one color component to a byte (fn clamp_pixel in color.rs):
values above 1 saturate to 255, negative values to 0, and values in the unit
interval are scaled to 255 and rounded to the nearest integer. -/
def clamp_pixel (c : ℝ) : ℕ :=
  if c > 1 then 255
  else if c < 0 then 0
  else (round (255 * c)).toNat

/-- Conversion of a color to a byte triple (Color::to_pixel). -/
def Color.to_pixel (c : Color) : ℕ × ℕ × ℕ :=
  (clamp_pixel c.red, clamp_pixel c.green, clamp_pixel c.blue)

/-- Averaging an accumulated color over the sample count, gamma-correcting by
a square root, then clamping (Color::sample_pixel). -/
def Color.sample_pixel (c : Color) (samples_per_pixel : ℕ) : ℕ × ℕ × ℕ :=
  let scale : ℝ := 1 / (samples_per_pixel : ℝ)
  (clamp_pixel (Real.sqrt (c.red * scale)),
   clamp_pixel (Real.sqrt (c.green * scale)),
   clamp_pixel (Real.sqrt (c.blue * scale)))

/-! ## material.rs -/

/-- The closed set of surface materials (enum Material in material.rs). -/
inductive Material where
  | DiffuseNonMetal (albedo : Color)
  | Metal (albedo : Color) (fuzz : ℝ)
  | Dielectric (index_of_refraction : ℝ) (attenuation : Color)

/-- Schlick approximation of the Fresnel reflectance
(fn dielectric_reflectance in material.rs). -/
def dielectric_reflectance (cosine ref_index : ℝ) : ℝ :=
  let r0 := ((1 - ref_index) / (1 + ref_index)) ^ 2
  r0 + (1 - r0) * (1 - cosine) ^ 5

/-- One record of random draws consumed by a single scatter event: the
random_unit_vector sample of the diffuse branch, the
random_point_in_unit_sphere sample of the metal branch, and the uniform
draw of the dielectric branch. -/
structure RandSrc where
  unitVec : Vector3
  inSphere : Vector3
  uniform : ℝ

/-! ## shapes/mod.rs -/

/-- A real-valued interval with a minimum and a maximum (struct Interval in
shapes/mod.rs). The bounds are f64 values, which include the infinities, so
they are modelled in EReal. -/
structure Interval where
  min : EReal
  max : EReal

/-- The f64 constant INFINITY used by the transport evaluator. -/
def INFINITY : EReal := ⊤

/-- Strict membership in the open interval (Interval::surrounds). -/
def Interval.surrounds (iv : Interval) (x : ℝ) : Prop :=
  iv.min < (x : EReal) ∧ (x : EReal) < iv.max

instance (iv : Interval) (x : ℝ) : Decidable (iv.surrounds x) :=
  instDecidableAnd

/-- The hit record (struct Intersection in shapes/mod.rs): ray parameter,
hit point, stored normal, front-face flag and the struck material. The Rust
bool field ray_hit_outer_surface is modelled as a Prop. -/
structure Intersection where
  t : ℝ
  p : Point3
  normal : Vector3
  ray_hit_outer_surface : Prop
  material : Material

/-- The hit-record constructor (Intersection::new in shapes/mod.rs): flags
whether the raw normal already opposed the ray direction and flips the
stored normal when it did not. -/
def Intersection.new (r : Ray) (t : ℝ) (p : Point3) (normal : Vector3)
    (material : Material) : Intersection :=
  let ray_hit_outer_surface := r.direction.dot normal < 0
  { t := t
    p := p
    normal := if ray_hit_outer_surface then normal else -normal
    ray_hit_outer_surface := ray_hit_outer_surface
    material := material }

@[simp] theorem Intersection.new_t (r : Ray) (t : ℝ) (p : Point3)
    (normal : Vector3) (material : Material) :
    (Intersection.new r t p normal material).t = t := rfl

/-- A sphere with a center, a radius and an owned material (struct Sphere in
shapes/mod.rs). -/
structure Sphere where
  center : Point3
  radius : ℝ
  material : Material

/-- The coefficient a of the quadratic solved by Sphere::hit: the squared
length of the ray direction. -/
def sphereA (r : Ray) : ℝ := r.direction.length_squared

/-- The coefficient half_b of the quadratic solved by Sphere::hit. -/
def sphereHalfB (s : Sphere) (r : Ray) : ℝ :=
  r.direction.dot (r.origin - s.center)

/-- The coefficient c of the quadratic solved by Sphere::hit. -/
def sphereC (s : Sphere) (r : Ray) : ℝ :=
  (r.origin - s.center).length_squared - s.radius * s.radius

/-- The discriminant half_b * half_b - a * c computed by Sphere::hit. -/
def sphereDisc (s : Sphere) (r : Ray) : ℝ :=
  sphereHalfB s r * sphereHalfB s r - sphereA r * sphereC s r

/-- The nearer quadratic root tested first by Sphere::hit. -/
def sphereT1 (s : Sphere) (r : Ray) : ℝ :=
  (-sphereHalfB s r - Real.sqrt (sphereDisc s r)) / sphereA r

/-- The farther quadratic root tested second by Sphere::hit. -/
def sphereT2 (s : Sphere) (r : Ray) : ℝ :=
  (-sphereHalfB s r + Real.sqrt (sphereDisc s r)) / sphereA r

/-- Construction of the hit record at parameter t
(Sphere::compute_intersection in shapes/mod.rs): hit point from Ray::at,
raw outward normal scaled by the inverse radius, then Intersection::new. -/
def Sphere.compute_intersection (s : Sphere) (r : Ray) (t : ℝ) :
    Intersection :=
  Intersection.new r t (r.at t) ((r.at t - s.center) / s.radius) s.material

/-- Ray-sphere intersection (Sphere::hit in shapes/mod.rs): on a positive
discriminant, test the nearer root first, accept the first root strictly
inside the interval, otherwise test the farther root; no real roots or two
rejected roots give none. -/
def Sphere.hit (s : Sphere) (r : Ray) (iv : Interval) :
    Option Intersection :=
  if sphereDisc s r > 0 then
    if iv.surrounds (sphereT1 s r) then
      some (s.compute_intersection r (sphereT1 s r))
    else if iv.surrounds (sphereT2 s r) then
      some (s.compute_intersection r (sphereT2 s r))
    else none
  else none

/-- The closed union of scene shapes (enum Shape in shapes/mod.rs); spheres
are the only variant in this scope. -/
inductive Shape where
  | sphere (s : Sphere)

/-- Shape dispatch of the intersection query (impl Hittable for Shape). -/
def Shape.hit (o : Shape) (r : Ray) (iv : Interval) : Option Intersection :=
  match o with
  | Shape.sphere s => s.hit r iv

/-- The scene aggregate owning its shapes (struct HittableObjects in
shapes/mod.rs). -/
structure HittableObjects where
  objects : List Shape

/-- The loop body of HittableObjects::hit: walk the shapes keeping the
closest hit so far, querying each shape against the interval shrunk to the
best parameter found so far. -/
def hitLoop (r : Ray) (lo : EReal) :
    List Shape → EReal → Option Intersection → Option Intersection
  | [], _, acc => acc
  | o :: rest, closest_hit, acc =>
    match o.hit r ⟨lo, closest_hit⟩ with
    | some intersection =>
      if (intersection.t : EReal) < closest_hit then
        hitLoop r lo rest (intersection.t : EReal) (some intersection)
      else
        hitLoop r lo rest closest_hit acc
    | none => hitLoop r lo rest closest_hit acc

/-- Closest-hit query over the scene (HittableObjects::hit in
shapes/mod.rs). -/
def HittableObjects.hit (w : HittableObjects) (r : Ray) (iv : Interval) :
    Option Intersection :=
  hitLoop r iv.min w.objects iv.max none

open Classical in
/-- Material scattering (Material::scatter in material.rs), with the random
draws it consumes passed explicitly. Returns the scattered ray and the
attenuation color, or none when the ray is absorbed. -/
def Material.scatter (m : Material) (rs : RandSrc) (incident_ray : Ray)
    (intersect : Intersection) : Option (Ray × Color) :=
  match m with
  | Material.DiffuseNonMetal albedo =>
    let scatter_direction := intersect.normal + rs.unitVec
    some (⟨intersect.p, scatter_direction⟩, albedo)
  | Material.Metal albedo fuzz =>
    let reflection :=
      (incident_ray.direction.to_unit_vector).reflect intersect.normal
    let direction := reflection + fuzz • rs.inSphere
    let scattered_ray : Ray := ⟨intersect.p, direction⟩
    if scattered_ray.direction.dot intersect.normal > 0 then
      some (scattered_ray, albedo)
    else none
  | Material.Dielectric index_of_refraction attenuation =>
    let refraction_ratio :=
      if intersect.ray_hit_outer_surface then 1 / index_of_refraction
      else index_of_refraction
    let incident_direction := incident_ray.direction.to_unit_vector
    let cos_theta := min (intersect.normal.dot (-incident_direction)) 1
    let sin_theta := Real.sqrt (1 - cos_theta * cos_theta)
    let cannot_refract := refraction_ratio * sin_theta > 1
    let condition := cannot_refract ∨
      dielectric_reflectance cos_theta refraction_ratio > rs.uniform
    let refracted_direction :=
      if condition then incident_direction.reflect intersect.normal
      else incident_direction.refract intersect.normal refraction_ratio
    some (⟨intersect.p, refracted_direction⟩, attenuation)

/-- The recursive transport evaluator (HittableObjects::compute_ray_color in
shapes/mod.rs): at exhausted depth return black; otherwise query the scene
on the interval from 0 to INFINITY, scatter at a hit (black on absorption,
attenuated recursion otherwise), and return the vertical background
gradient on a miss. The oracle supplies one draw record per recursion
level. -/
def HittableObjects.compute_ray_color (w : HittableObjects)
    (oracle : ℕ → RandSrc) (r : Ray) (depth : ℤ) : Color :=
  if depth ≤ 0 then Color.BLACK
  else
    match w.hit r ⟨0, INFINITY⟩ with
    | some intersect =>
      match intersect.material.scatter (oracle 0) r intersect with
      | some (scattered_ray, attenuation) =>
        attenuation.mult
          (w.compute_ray_color (fun n => oracle (n + 1)) scattered_ray
            (depth - 1))
      | none => Color.BLACK
    | none =>
      let ray_direction := r.direction.to_unit_vector
      let t := 0.5 * (ray_direction.y + 1)
      (1 - t) • Color.WHITE + t • Color.mk 0.5 0.7 1
termination_by depth.toNat
decreasing_by
  simp_wf
  omega

/-! ## geom.rs: random_point_in_unit_sphere -/

/-- The rejection-sampling loop of fn random_point_in_unit_sphere in
geom.rs, with the generator stream passed explicitly and the unbounded
Rust loop modelled by fuel: each attempt draws three f64 samples (each in
the unit interval by the generator contract), retries while the squared
length is at least 1, and returns the first accepted vector. -/
def random_point_in_unit_sphere :
    (ℕ → ℝ × ℝ × ℝ) → ℕ → Option Vector3
  | _, 0 => none
  | gen, fuel + 1 =>
    let v : Vector3 := ⟨(gen 0).1, (gen 0).2.1, (gen 0).2.2⟩
    if v.length_squared ≥ 1 then
      random_point_in_unit_sphere (fun n => gen (n + 1)) fuel
    else some v

/-! ## Concrete scenes and draws used by witnesses and counterexamples -/

/-- A gray diffuse material used where the material is irrelevant. -/
def matGray : Material := Material.DiffuseNonMetal ⟨0.5, 0.5, 0.5⟩

/-- A ray from the origin along the positive z axis. -/
def witnessRay : Ray := ⟨⟨0, 0, 0⟩, ⟨0, 0, 1⟩⟩

/-- The finite query interval from 0 to 100 used by witnesses. -/
def witnessInterval : Interval := ⟨((0 : ℝ) : EReal), ((100 : ℝ) : EReal)⟩

/-- A unit sphere centered on the z axis at distance 3. -/
def sphereNear : Sphere := ⟨⟨0, 0, 3⟩, 1, matGray⟩

/-- A unit sphere centered on the z axis at distance 5, overlapping the
same ray as sphereNear. -/
def sphereFar : Sphere := ⟨⟨0, 0, 5⟩, 1, matGray⟩

/-- The hit record of witnessRay on sphereNear at parameter 2. -/
def interNear : Intersection := sphereNear.compute_intersection witnessRay 2

/-- The hit record of witnessRay on sphereFar at parameter 4. -/
def interFar : Intersection := sphereFar.compute_intersection witnessRay 4

/-- A unit sphere touching witnessRay tangentially (discriminant zero). -/
def sphereTangent : Sphere := ⟨⟨0, 1, 2⟩, 1, matGray⟩

/-- A ray along the positive x axis, perpendicular to the raw normal used
in the claim-3 counterexample. -/
def perpRay : Ray := ⟨⟨0, 0, 0⟩, ⟨1, 0, 0⟩⟩

/-- A draw record consuming no randomness. -/
def zeroSrc : RandSrc := ⟨⟨0, 0, 0⟩, ⟨0, 0, 0⟩, 0⟩

/-- A unit sphere at the origin, hit by acneRay at the tiny parameter
1/2000. -/
def acneSphere : Sphere := ⟨⟨0, 0, 0⟩, 1, Material.Metal ⟨0.9, 0.9, 0.9⟩ 0⟩

/-- A ray starting 1/2000 outside acneSphere, aimed at it. -/
def acneRay : Ray := ⟨⟨0, 0, -(2001 / 2000)⟩, ⟨0, 0, 1⟩⟩

/-- The hit record of acneRay on acneSphere at parameter 1/2000. -/
def interAcne : Intersection :=
  acneSphere.compute_intersection acneRay (1 / 2000)

/-- An incident ray with unit direction 0.6, -0.8, 0. -/
def glassRay : Ray := ⟨⟨0, 0, 0⟩, ⟨0.6, -0.8, 0⟩⟩

/-- A front-face intersection with unit normal 0, 1, 0 on a matched-medium
dielectric. -/
def glassInter : Intersection :=
  ⟨1, ⟨0, 0, 0⟩, ⟨0, 1, 0⟩, True, Material.Dielectric 1 Color.WHITE⟩

/-- A draw record whose uniform sample 0.0001 falls below the Schlick
reflectance of the claim-5 configuration, forcing the reflect branch. -/
def reflectSrc : RandSrc := ⟨⟨0, 0, 0⟩, ⟨0, 0, 0⟩, 0.0001⟩

/-- A draw record whose uniform sample 0.5 exceeds the Schlick reflectance
of the claim-5 configuration, taking the refract branch. -/
def refractSrc : RandSrc := ⟨⟨0, 0, 0⟩, ⟨0, 0, 0⟩, 0.5⟩

/-- The incident ray of the claim-6 scenario, direction 1, -1, 0. -/
def metalRay : Ray := ⟨⟨0, 0, 0⟩, ⟨1, -1, 0⟩⟩

/-- The intersection of the claim-6 scenario, normal 0, 1, 0. -/
def metalInter : Intersection :=
  ⟨1, ⟨0, 0, 0⟩, ⟨0, 1, 0⟩, True, Material.Metal ⟨0.7, 0.6, 0.5⟩ 0⟩

/-- A constant generator stream for the claim-10 witness. -/
def halfGen : ℕ → ℝ × ℝ × ℝ := fun _ => (1 / 2, 1 / 2, 1 / 2)

/-! ## Groundwork lemmas about the sphere intersection -/

theorem sphereA_nonneg (r : Ray) : 0 ≤ sphereA r :=
  Vector3.length_squared_nonneg _

theorem sphereA_pos_of_disc_pos {s : Sphere} {r : Ray}
    (h : 0 < sphereDisc s r) : 0 < sphereA r := by
  rcases eq_or_lt_of_le (sphereA_nonneg r) with ha | ha
  · exfalso
    have hd : r.direction = ⟨0, 0, 0⟩ :=
      Vector3.eq_zero_of_length_squared_eq_zero ha.symm
    have hb : sphereHalfB s r = 0 := by
      unfold sphereHalfB
      rw [hd]
      simp [Vector3.dot]
    unfold sphereDisc at h
    rw [hb, ← ha] at h
    simp at h
  · exact ha

theorem sphereT1_le_sphereT2 {s : Sphere} {r : Ray}
    (h : 0 < sphereDisc s r) : sphereT1 s r ≤ sphereT2 s r := by
  have ha := sphereA_pos_of_disc_pos h
  have hs : 0 ≤ Real.sqrt (sphereDisc s r) := Real.sqrt_nonneg _
  unfold sphereT1 sphereT2
  exact div_le_div_of_nonneg_right (by linarith) ha.le

/-- Inversion of a successful sphere hit: the discriminant was positive and
the record is the one built at the first accepted root. -/
theorem Sphere.hit_eq_some_elim {s : Sphere} {r : Ray} {iv : Interval}
    {i : Intersection} (h : s.hit r iv = some i) :
    0 < sphereDisc s r ∧
      ((iv.surrounds (sphereT1 s r) ∧
          i = s.compute_intersection r (sphereT1 s r) ∧
          i.t = sphereT1 s r) ∨
        (¬iv.surrounds (sphereT1 s r) ∧ iv.surrounds (sphereT2 s r) ∧
          i = s.compute_intersection r (sphereT2 s r) ∧
          i.t = sphereT2 s r)) := by
  unfold Sphere.hit at h
  split_ifs at h with h0 h1 h2
  · refine ⟨h0, Or.inl ⟨h1, ?_, ?_⟩⟩
    · exact (Option.some.inj h).symm
    · rw [← Option.some.inj h]
      rfl
  · refine ⟨h0, Or.inr ⟨h1, h2, ?_, ?_⟩⟩
    · exact (Option.some.inj h).symm
    · rw [← Option.some.inj h]
      rfl

/-- Inversion of a missed sphere hit: either no real roots, or both roots
rejected by the interval. -/
theorem Sphere.hit_eq_none_elim {s : Sphere} {r : Ray} {iv : Interval}
    (h : s.hit r iv = none) :
    sphereDisc s r ≤ 0 ∨
      (0 < sphereDisc s r ∧ ¬iv.surrounds (sphereT1 s r) ∧
        ¬iv.surrounds (sphereT2 s r)) := by
  unfold Sphere.hit at h
  split_ifs at h with h0 h1 h2
  · exact Or.inr ⟨h0, h1, h2⟩
  · exact Or.inl (not_lt.mp h0)

theorem Sphere.hit_t1 {s : Sphere} {r : Ray} {iv : Interval}
    (h0 : 0 < sphereDisc s r) (h1 : iv.surrounds (sphereT1 s r)) :
    s.hit r iv = some (s.compute_intersection r (sphereT1 s r)) := by
  unfold Sphere.hit
  rw [if_pos h0, if_pos h1]

theorem Sphere.hit_t2 {s : Sphere} {r : Ray} {iv : Interval}
    (h0 : 0 < sphereDisc s r) (h1 : ¬iv.surrounds (sphereT1 s r))
    (h2 : iv.surrounds (sphereT2 s r)) :
    s.hit r iv = some (s.compute_intersection r (sphereT2 s r)) := by
  unfold Sphere.hit
  rw [if_pos h0, if_neg h1, if_pos h2]

theorem Sphere.hit_miss {s : Sphere} {r : Ray} {iv : Interval}
    (h1 : ¬iv.surrounds (sphereT1 s r)) (h2 : ¬iv.surrounds (sphereT2 s r)) :
    s.hit r iv = none := by
  unfold Sphere.hit
  by_cases h0 : sphereDisc s r > 0
  · rw [if_pos h0, if_neg h1, if_neg h2]
  · rw [if_neg h0]

/-- A hit found below a tighter upper bound is still found when the upper
bound shrinks to stay above it. -/
theorem Sphere.hit_shrink_some {s : Sphere} {r : Ray} {lo hi hi' : EReal}
    {i : Intersection} (h : s.hit r ⟨lo, hi⟩ = some i)
    (hlt : (i.t : EReal) < hi') : s.hit r ⟨lo, hi'⟩ = some i := by
  obtain ⟨h0, hc⟩ := Sphere.hit_eq_some_elim h
  rcases hc with ⟨⟨hlo, _⟩, hi_eq, ht⟩ | ⟨hn1, ⟨hlo2, hhi2⟩, hi_eq, ht⟩
  · rw [hi_eq]
    exact Sphere.hit_t1 h0 ⟨hlo, ht ▸ hlt⟩
  · have h12 : (sphereT1 s r : EReal) ≤ (sphereT2 s r : EReal) :=
      EReal.coe_le_coe_iff.mpr (sphereT1_le_sphereT2 h0)
    have ht1lo : ¬(lo < (sphereT1 s r : EReal)) := by
      intro hcon
      exact hn1 ⟨hcon, lt_of_le_of_lt h12 hhi2⟩
    rw [hi_eq]
    exact Sphere.hit_t2 h0 (fun hs => ht1lo hs.1) ⟨hlo2, ht ▸ hlt⟩

/-- Shrinking the upper bound to at most the found parameter turns the hit
into a miss. -/
theorem Sphere.hit_shrink_none_of_le {s : Sphere} {r : Ray}
    {lo hi hi' : EReal} {i : Intersection} (h : s.hit r ⟨lo, hi⟩ = some i)
    (hle : hi' ≤ (i.t : EReal)) : s.hit r ⟨lo, hi'⟩ = none := by
  obtain ⟨h0, hc⟩ := Sphere.hit_eq_some_elim h
  have h12 : (sphereT1 s r : EReal) ≤ (sphereT2 s r : EReal) :=
    EReal.coe_le_coe_iff.mpr (sphereT1_le_sphereT2 h0)
  rcases hc with ⟨⟨hlo, _⟩, _, ht⟩ | ⟨hn1, ⟨hlo2, hhi2⟩, _, ht⟩
  · refine Sphere.hit_miss (fun hs => ?_) (fun hs => ?_)
    · exact absurd hs.2 (not_lt.mpr (ht ▸ hle))
    · exact absurd hs.2 (not_lt.mpr (le_trans (ht ▸ hle) h12))
  · have ht1lo : ¬(lo < (sphereT1 s r : EReal)) := by
      intro hcon
      exact hn1 ⟨hcon, lt_of_le_of_lt h12 hhi2⟩
    refine Sphere.hit_miss (fun hs => ht1lo hs.1) (fun hs => ?_)
    exact absurd hs.2 (not_lt.mpr (ht ▸ hle))

/-- A miss stays a miss when the upper bound shrinks. -/
theorem Sphere.hit_shrink_none {s : Sphere} {r : Ray} {lo hi hi' : EReal}
    (h : s.hit r ⟨lo, hi⟩ = none) (hle : hi' ≤ hi) :
    s.hit r ⟨lo, hi'⟩ = none := by
  rcases Sphere.hit_eq_none_elim h with h0 | ⟨h0, hn1, hn2⟩
  · unfold Sphere.hit
    rw [if_neg (not_lt.mpr h0)]
  · refine Sphere.hit_miss (fun hs => hn1 ⟨hs.1, ?_⟩) (fun hs => hn2 ⟨hs.1, ?_⟩)
    · exact lt_of_lt_of_le hs.2 hle
    · exact lt_of_lt_of_le hs.2 hle

/-- A successful sphere hit lies strictly inside the queried interval. -/
theorem Sphere.hit_t_mem {s : Sphere} {r : Ray} {iv : Interval}
    {i : Intersection} (h : s.hit r iv = some i) : iv.surrounds i.t := by
  obtain ⟨_, hc⟩ := Sphere.hit_eq_some_elim h
  rcases hc with ⟨hs, _, ht⟩ | ⟨_, hs, _, ht⟩ <;> exact ht ▸ hs

/-! ## The scene aggregate loop versus a transparent minimum fold -/

theorem Shape.hit_t_mem_lift {o : Shape} {r : Ray} {iv : Interval}
    {i : Intersection} (h : o.hit r iv = some i) : iv.surrounds i.t := by
  cases o with
  | sphere s => exact Sphere.hit_t_mem h

theorem Shape.hit_shrink_some_lift {o : Shape} {r : Ray} {lo hi hi' : EReal}
    {i : Intersection} (h : o.hit r ⟨lo, hi⟩ = some i)
    (hlt : (i.t : EReal) < hi') : o.hit r ⟨lo, hi'⟩ = some i := by
  cases o with
  | sphere s => exact Sphere.hit_shrink_some h hlt

theorem Shape.hit_shrink_none_of_le_lift {o : Shape} {r : Ray} {lo hi hi' : EReal}
    {i : Intersection} (h : o.hit r ⟨lo, hi⟩ = some i)
    (hle : hi' ≤ (i.t : EReal)) : o.hit r ⟨lo, hi'⟩ = none := by
  cases o with
  | sphere s => exact Sphere.hit_shrink_none_of_le h hle

theorem Shape.hit_shrink_none_lift {o : Shape} {r : Ray} {lo hi hi' : EReal}
    (h : o.hit r ⟨lo, hi⟩ = none) (hle : hi' ≤ hi) :
    o.hit r ⟨lo, hi'⟩ = none := by
  cases o with
  | sphere s => exact Sphere.hit_shrink_none h hle

/-- Specification-level fold: query every shape against the full interval
and keep the record with the smaller parameter, preferring the earlier
shape on ties. The implementation loop is proved equal to this fold. -/
def bestHit (r : Ray) (iv : Interval) :
    List Shape → Option Intersection → Option Intersection
  | [], acc => acc
  | o :: rest, acc =>
    match o.hit r iv, acc with
    | none, _ => bestHit r iv rest acc
    | some i, none => bestHit r iv rest (some i)
    | some i, some j =>
      bestHit r iv rest (if i.t < j.t then some i else some j)

theorem hitLoop_cons_none {r : Ray} {lo ch : EReal} {o : Shape}
    {rest : List Shape} {acc : Option Intersection}
    (hq : o.hit r ⟨lo, ch⟩ = none) :
    hitLoop r lo (o :: rest) ch acc = hitLoop r lo rest ch acc := by
  simp only [hitLoop]
  rw [hq]

theorem hitLoop_cons_some {r : Ray} {lo ch : EReal} {o : Shape}
    {rest : List Shape} {acc : Option Intersection} {i : Intersection}
    (hq : o.hit r ⟨lo, ch⟩ = some i) :
    hitLoop r lo (o :: rest) ch acc =
      if (i.t : EReal) < ch then hitLoop r lo rest (i.t : EReal) (some i)
      else hitLoop r lo rest ch acc := by
  simp only [hitLoop]
  rw [hq]

theorem bestHit_cons_none {r : Ray} {iv : Interval} {o : Shape}
    {rest : List Shape} {acc : Option Intersection}
    (hq : o.hit r iv = none) :
    bestHit r iv (o :: rest) acc = bestHit r iv rest acc := by
  simp only [bestHit]
  rw [hq]

theorem bestHit_cons_some_none {r : Ray} {iv : Interval} {o : Shape}
    {rest : List Shape} {i : Intersection} (hq : o.hit r iv = some i) :
    bestHit r iv (o :: rest) none = bestHit r iv rest (some i) := by
  simp only [bestHit]
  rw [hq]

theorem bestHit_cons_some_some {r : Ray} {iv : Interval} {o : Shape}
    {rest : List Shape} {i j : Intersection} (hq : o.hit r iv = some i) :
    bestHit r iv (o :: rest) (some j) =
      bestHit r iv rest (if i.t < j.t then some i else some j) := by
  simp only [bestHit]
  rw [hq]

/-- The shrinking-interval loop of HittableObjects::hit computes the same
result as the transparent minimum fold over the full interval. -/
theorem hitLoop_eq_bestHit (r : Ray) (lo hi : EReal) :
    ∀ (objs : List Shape) (acc : Option Intersection) (ch : EReal),
      ((acc = none ∧ ch = hi) ∨
        (∃ j, acc = some j ∧ ch = (j.t : EReal) ∧ (j.t : EReal) ≤ hi)) →
      hitLoop r lo objs ch acc = bestHit r ⟨lo, hi⟩ objs acc := by
  intro objs
  induction objs with
  | nil =>
    intro acc ch _
    rfl
  | cons o rest ih =>
    intro acc ch hinv
    rcases hinv with ⟨hacc, hch⟩ | ⟨j, hacc, hch, hle⟩
    · subst hacc
      rw [hch]
      cases hq : o.hit r ⟨lo, hi⟩ with
      | none =>
        rw [hitLoop_cons_none hq, bestHit_cons_none hq]
        exact ih none hi (Or.inl ⟨rfl, rfl⟩)
      | some i =>
        have hti : (i.t : EReal) < hi := (Shape.hit_t_mem_lift hq).2
        rw [hitLoop_cons_some hq, if_pos hti, bestHit_cons_some_none hq]
        exact ih (some i) _ (Or.inr ⟨i, rfl, rfl, hti.le⟩)
    · subst hacc
      rw [hch]
      cases hq : o.hit r ⟨lo, hi⟩ with
      | none =>
        have hq' : o.hit r ⟨lo, (j.t : EReal)⟩ = none :=
          Shape.hit_shrink_none_lift hq hle
        rw [hitLoop_cons_none hq', bestHit_cons_none hq]
        exact ih (some j) _ (Or.inr ⟨j, rfl, rfl, hle⟩)
      | some i =>
        rw [bestHit_cons_some_some hq]
        by_cases hij : i.t < j.t
        · have hq' : o.hit r ⟨lo, (j.t : EReal)⟩ = some i :=
            Shape.hit_shrink_some_lift hq (EReal.coe_lt_coe_iff.mpr hij)
          rw [hitLoop_cons_some hq', if_pos (EReal.coe_lt_coe_iff.mpr hij),
            if_pos hij]
          exact ih (some i) _
            (Or.inr ⟨i, rfl, rfl,
              le_trans (EReal.coe_le_coe_iff.mpr hij.le) hle⟩)
        · have hq' : o.hit r ⟨lo, (j.t : EReal)⟩ = none :=
            Shape.hit_shrink_none_of_le_lift hq
              (EReal.coe_le_coe_iff.mpr (not_lt.mp hij))
          rw [hitLoop_cons_none hq', if_neg hij]
          exact ih (some j) _ (Or.inr ⟨j, rfl, rfl, hle⟩)

/-- The scene query unfolds to the transparent minimum fold. -/
theorem HittableObjects.hit_eq_bestHit (w : HittableObjects) (r : Ray)
    (iv : Interval) : w.hit r iv = bestHit r iv w.objects none := by
  unfold HittableObjects.hit
  exact hitLoop_eq_bestHit r iv.min iv.max w.objects none iv.max
    (Or.inl ⟨rfl, rfl⟩)

theorem bestHit_all_none (r : Ray) (iv : Interval) :
    ∀ (objs : List Shape) (acc : Option Intersection),
      (∀ o ∈ objs, o.hit r iv = none) → bestHit r iv objs acc = acc := by
  intro objs
  induction objs with
  | nil =>
    intro acc _
    rfl
  | cons o rest ih =>
    intro acc hall
    rw [bestHit_cons_none (hall o (List.mem_cons_self o rest))]
    exact ih acc fun o' ho' => hall o' (List.mem_cons_of_mem o ho')

theorem bestHit_sound (r : Ray) (iv : Interval) :
    ∀ (objs : List Shape) (acc : Option Intersection) (i : Intersection),
      bestHit r iv objs acc = some i →
      acc = some i ∨ ∃ o ∈ objs, o.hit r iv = some i := by
  intro objs
  induction objs with
  | nil =>
    intro acc i h
    exact Or.inl h
  | cons o rest ih =>
    intro acc i h
    cases hq : o.hit r iv with
    | none =>
      rw [bestHit_cons_none hq] at h
      rcases ih acc i h with hl | ⟨o', ho', hh⟩
      · exact Or.inl hl
      · exact Or.inr ⟨o', List.mem_cons_of_mem o ho', hh⟩
    | some k =>
      cases acc with
      | none =>
        rw [bestHit_cons_some_none hq] at h
        rcases ih (some k) i h with hl | ⟨o', ho', hh⟩
        · exact Or.inr ⟨o, List.mem_cons_self o rest, hq.trans hl⟩
        · exact Or.inr ⟨o', List.mem_cons_of_mem o ho', hh⟩
      | some j =>
        rw [bestHit_cons_some_some hq] at h
        by_cases hkj : k.t < j.t
        · rw [if_pos hkj] at h
          rcases ih (some k) i h with hl | ⟨o', ho', hh⟩
          · exact Or.inr ⟨o, List.mem_cons_self o rest, hq.trans hl⟩
          · exact Or.inr ⟨o', List.mem_cons_of_mem o ho', hh⟩
        · rw [if_neg hkj] at h
          rcases ih (some j) i h with hl | ⟨o', ho', hh⟩
          · exact Or.inl hl
          · exact Or.inr ⟨o', List.mem_cons_of_mem o ho', hh⟩

theorem bestHit_le_acc (r : Ray) (iv : Interval) :
    ∀ (objs : List Shape) (j i : Intersection),
      bestHit r iv objs (some j) = some i → i.t ≤ j.t := by
  intro objs
  induction objs with
  | nil =>
    intro j i h
    rw [Option.some.inj h]
  | cons o rest ih =>
    intro j i h
    cases hq : o.hit r iv with
    | none =>
      rw [bestHit_cons_none hq] at h
      exact ih j i h
    | some k =>
      rw [bestHit_cons_some_some hq] at h
      by_cases hkj : k.t < j.t
      · rw [if_pos hkj] at h
        exact le_trans (ih k i h) hkj.le
      · rw [if_neg hkj] at h
        exact ih j i h

theorem bestHit_min (r : Ray) (iv : Interval) :
    ∀ (objs : List Shape) (acc : Option Intersection) (i : Intersection),
      bestHit r iv objs acc = some i →
      ∀ o ∈ objs, ∀ k, o.hit r iv = some k → i.t ≤ k.t := by
  intro objs
  induction objs with
  | nil =>
    intro acc i _ o ho
    exact absurd ho (List.not_mem_nil o)
  | cons o rest ih =>
    intro acc i h o' ho' k hk
    rcases List.mem_cons.mp ho' with heq | hmem
    · subst heq
      cases acc with
      | none =>
        rw [bestHit_cons_some_none hk] at h
        exact bestHit_le_acc r iv rest k i h
      | some j =>
        rw [bestHit_cons_some_some hk] at h
        by_cases hkj : k.t < j.t
        · rw [if_pos hkj] at h
          exact bestHit_le_acc r iv rest k i h
        · rw [if_neg hkj] at h
          exact le_trans (bestHit_le_acc r iv rest j i h) (not_lt.mp hkj)
    · cases hq : o.hit r iv with
      | none =>
        rw [bestHit_cons_none hq] at h
        exact ih acc i h o' hmem k hk
      | some m =>
        cases acc with
        | none =>
          rw [bestHit_cons_some_none hq] at h
          exact ih (some m) i h o' hmem k hk
        | some j =>
          rw [bestHit_cons_some_some hq] at h
          by_cases hmj : m.t < j.t
          · rw [if_pos hmj] at h
            exact ih (some m) i h o' hmem k hk
          · rw [if_neg hmj] at h
            exact ih (some j) i h o' hmem k hk

/-! ## Helper lemmas for concrete evaluation -/

theorem surrounds_coe {a b x : ℝ} :
    (Interval.mk (a : EReal) (b : EReal)).surrounds x ↔ a < x ∧ x < b := by
  simp [Interval.surrounds, EReal.coe_lt_coe_iff]

theorem surrounds_zero_top {x : ℝ} :
    (Interval.mk 0 INFINITY).surrounds x ↔ 0 < x := by
  simp [Interval.surrounds, INFINITY, ← EReal.coe_zero,
    EReal.coe_lt_coe_iff, EReal.coe_lt_top]

/-- The transport evaluator returns black as soon as the depth budget is
exhausted. -/
theorem compute_ray_color_black_of_nonpos (w : HittableObjects)
    (oracle : ℕ → RandSrc) (r : Ray) (depth : ℤ) (h : depth ≤ 0) :
    w.compute_ray_color oracle r depth = Color.BLACK := by
  rw [HittableObjects.compute_ray_color, if_pos h]

theorem sphereNear_hit :
    Shape.hit (Shape.sphere sphereNear) witnessRay witnessInterval =
      some interNear := by
  show sphereNear.hit witnessRay witnessInterval = some interNear
  have hd : sphereDisc sphereNear witnessRay = 1 := by
    unfold sphereDisc sphereHalfB sphereA sphereC sphereNear witnessRay
    simp
  have ht1 : sphereT1 sphereNear witnessRay = 2 := by
    unfold sphereT1
    rw [hd, Real.sqrt_one]
    unfold sphereHalfB sphereA sphereNear witnessRay
    simp
    norm_num
  have h0 : sphereDisc sphereNear witnessRay > 0 := by
    rw [hd]
    norm_num
  have hs : witnessInterval.surrounds (sphereT1 sphereNear witnessRay) := by
    rw [ht1]
    unfold witnessInterval
    rw [surrounds_coe]
    norm_num
  rw [Sphere.hit_t1 h0 hs, ht1]
  rfl

theorem sphereFar_hit :
    Shape.hit (Shape.sphere sphereFar) witnessRay witnessInterval =
      some interFar := by
  show sphereFar.hit witnessRay witnessInterval = some interFar
  have hd : sphereDisc sphereFar witnessRay = 1 := by
    unfold sphereDisc sphereHalfB sphereA sphereC sphereFar witnessRay
    simp
  have ht1 : sphereT1 sphereFar witnessRay = 4 := by
    unfold sphereT1
    rw [hd, Real.sqrt_one]
    unfold sphereHalfB sphereA sphereFar witnessRay
    simp
    norm_num
  have h0 : sphereDisc sphereFar witnessRay > 0 := by
    rw [hd]
    norm_num
  have hs : witnessInterval.surrounds (sphereT1 sphereFar witnessRay) := by
    rw [ht1]
    unfold witnessInterval
    rw [surrounds_coe]
    norm_num
  rw [Sphere.hit_t1 h0 hs, ht1]
  rfl

/-! ## Claim theorems -/

/-- Claim C1: for every ray, interval and scene aggregate, the closest-hit
query returns the qualifying intersection with the smallest parameter among
all primitives; for two overlapping spheres along one ray it returns the
smaller-parameter intersection independent of insertion order; and it
returns none on the empty collection and when no primitive is hit within
the interval. -/
theorem claim1_closest_hit (r : Ray) (iv : Interval) :
    (HittableObjects.hit ⟨[]⟩ r iv = none) ∧
    (∀ objs : List Shape, (∀ o ∈ objs, o.hit r iv = none) →
      HittableObjects.hit ⟨objs⟩ r iv = none) ∧
    (∀ (objs : List Shape) (i : Intersection),
      HittableObjects.hit ⟨objs⟩ r iv = some i →
      (∃ o ∈ objs, o.hit r iv = some i) ∧
        ∀ o ∈ objs, ∀ k, o.hit r iv = some k → i.t ≤ k.t) ∧
    (∀ (a b : Shape) (i1 i2 : Intersection),
      a.hit r iv = some i1 → b.hit r iv = some i2 → i1.t < i2.t →
      HittableObjects.hit ⟨[a, b]⟩ r iv = some i1 ∧
        HittableObjects.hit ⟨[b, a]⟩ r iv = some i1) := by
  refine ⟨?_, ?_, ?_, ?_⟩
  · rw [HittableObjects.hit_eq_bestHit]
    rfl
  · intro objs hall
    rw [HittableObjects.hit_eq_bestHit]
    exact bestHit_all_none r iv objs none hall
  · intro objs i h
    rw [HittableObjects.hit_eq_bestHit] at h
    constructor
    · rcases bestHit_sound r iv objs none i h with hl | hr
      · exact Option.noConfusion hl
      · exact hr
    · exact bestHit_min r iv objs none i h
  · intro a b i1 i2 ha hb h12
    constructor
    · rw [HittableObjects.hit_eq_bestHit, bestHit_cons_some_none ha,
        bestHit_cons_some_some hb, if_neg (not_lt.mpr h12.le)]
      rfl
    · rw [HittableObjects.hit_eq_bestHit, bestHit_cons_some_none hb,
        bestHit_cons_some_some ha, if_pos h12]
      rfl

/-- Witness for claim C1: two concrete overlapping spheres along one ray,
hit at parameters 2 and 4; the aggregate returns the parameter-2 record in
both insertion orders. -/
theorem claim1_witness :
    Shape.hit (Shape.sphere sphereNear) witnessRay witnessInterval =
        some interNear ∧
      Shape.hit (Shape.sphere sphereFar) witnessRay witnessInterval =
        some interFar ∧
      interNear.t < interFar.t ∧
      HittableObjects.hit ⟨[Shape.sphere sphereNear, Shape.sphere sphereFar]⟩
        witnessRay witnessInterval = some interNear ∧
      HittableObjects.hit ⟨[Shape.sphere sphereFar, Shape.sphere sphereNear]⟩
        witnessRay witnessInterval = some interNear := by
  have hn := sphereNear_hit
  have hf := sphereFar_hit
  have hlt : interNear.t < interFar.t := by
    show (2 : ℝ) < 4
    norm_num
  obtain ⟨h1, h2⟩ :=
    (claim1_closest_hit witnessRay witnessInterval).2.2.2
      (Shape.sphere sphereNear) (Shape.sphere sphereFar) interNear interFar
      hn hf hlt
  exact ⟨hn, hf, hlt, h1, h2⟩

/-- Claim C2: the sphere intersection returns none when the discriminant is
not positive (tangency included); on a positive discriminant it tests the
nearer root first, accepts a root only strictly inside the open interval,
tests the farther root only when the nearer was rejected, and returns none
when neither qualifies. -/
theorem claim2_sphere_root_policy (s : Sphere) (r : Ray) (iv : Interval) :
    (sphereDisc s r ≤ 0 → s.hit r iv = none) ∧
    (0 < sphereDisc s r → iv.surrounds (sphereT1 s r) →
      s.hit r iv = some (s.compute_intersection r (sphereT1 s r))) ∧
    (0 < sphereDisc s r → ¬iv.surrounds (sphereT1 s r) →
      iv.surrounds (sphereT2 s r) →
      s.hit r iv = some (s.compute_intersection r (sphereT2 s r))) ∧
    (¬iv.surrounds (sphereT1 s r) → ¬iv.surrounds (sphereT2 s r) →
      s.hit r iv = none) := by
  refine ⟨?_, ?_, ?_, ?_⟩
  · intro h
    unfold Sphere.hit
    rw [if_neg (not_lt.mpr h)]
  · intro h0 h1
    exact Sphere.hit_t1 h0 h1
  · intro h0 h1 h2
    exact Sphere.hit_t2 h0 h1 h2
  · intro h1 h2
    exact Sphere.hit_miss h1 h2

/-- Witness for claim C2: a concrete tangent configuration with
discriminant exactly zero is a miss. -/
theorem claim2_witness :
    sphereDisc sphereTangent witnessRay ≤ 0 ∧
      sphereTangent.hit witnessRay witnessInterval = none := by
  have hd : sphereDisc sphereTangent witnessRay = 0 := by
    unfold sphereDisc sphereHalfB sphereA sphereC sphereTangent witnessRay
    simp
  have hle : sphereDisc sphereTangent witnessRay ≤ 0 := le_of_eq hd
  exact ⟨hle,
    (claim2_sphere_root_policy sphereTangent witnessRay witnessInterval).1
      hle⟩

/-- Claim C7: for every ray, every scene and every depth at most 0 (in
particular depth 0), the transport evaluator returns exactly black,
regardless of the ray and the scene contents. -/
theorem claim7_depth_exhausted (w : HittableObjects) (oracle : ℕ → RandSrc)
    (r : Ray) (depth : ℤ) (h : depth ≤ 0) :
    w.compute_ray_color oracle r depth = Color.BLACK :=
  compute_ray_color_black_of_nonpos w oracle r depth h

/-- Witness for claim C7 at depth 0 on the empty scene. -/
theorem claim7_witness :
    (0 : ℤ) ≤ 0 ∧
      (HittableObjects.mk []).compute_ray_color (fun _ => zeroSrc)
        witnessRay 0 = Color.BLACK :=
  ⟨le_refl 0,
    claim7_depth_exhausted ⟨[]⟩ (fun _ => zeroSrc) witnessRay 0 (le_refl 0)⟩

theorem Vector3.dot_comm (u v : Vector3) : u.dot v = v.dot u := by
  unfold Vector3.dot
  ring

theorem Vector3.neg_dot (u v : Vector3) : (-u).dot v = -(u.dot v) := by
  simp [Vector3.dot]
  ring

/-- Counterexample to claim C3 as stated: with a raw normal perpendicular
to the ray direction the stored normal does not strictly oppose the ray
(the dot product is zero). -/
theorem claim3_counterexample :
    ¬((Intersection.new perpRay 1 (perpRay.at 1) ⟨0, 1, 0⟩
        matGray).normal.dot perpRay.direction < 0) := by
  have hdot : perpRay.direction.dot ⟨0, 1, 0⟩ = 0 := by
    unfold perpRay
    simp
  have hno : ¬(perpRay.direction.dot ⟨0, 1, 0⟩ < 0) := by
    rw [hdot]
    exact lt_irrefl 0
  have hn : (Intersection.new perpRay 1 (perpRay.at 1) ⟨0, 1, 0⟩
      matGray).normal = ⟨0, -1, 0⟩ := by
    show (if perpRay.direction.dot ⟨0, 1, 0⟩ < 0 then (⟨0, 1, 0⟩ : Vector3)
      else -⟨0, 1, 0⟩) = ⟨0, -1, 0⟩
    rw [if_neg hno]
    simp
  rw [hn]
  unfold perpRay
  simp

/-- Claim C3 (amended): the stored normal never points with the ray (its
dot product with the ray direction is at most zero, and strictly negative
exactly when the raw normal was not perpendicular to the ray), and the
front-face flag holds exactly when the unflipped raw normal already opposed
the ray. -/
theorem claim3_normal_orientation (r : Ray) (t : ℝ) (p : Point3)
    (n : Vector3) (m : Material) :
    ((Intersection.new r t p n m).normal.dot r.direction ≤ 0) ∧
    (r.direction.dot n ≠ 0 →
      (Intersection.new r t p n m).normal.dot r.direction < 0) ∧
    ((Intersection.new r t p n m).ray_hit_outer_surface ↔
      r.direction.dot n < 0) := by
  have hstored : (Intersection.new r t p n m).normal =
      if r.direction.dot n < 0 then n else -n := rfl
  by_cases hf : r.direction.dot n < 0
  · refine ⟨?_, fun _ => ?_, Iff.intro (fun _ => hf) (fun _ => hf)⟩
    · rw [hstored, if_pos hf, Vector3.dot_comm]
      exact hf.le
    · rw [hstored, if_pos hf, Vector3.dot_comm]
      exact hf
  · have hge : 0 ≤ r.direction.dot n := not_lt.mp hf
    refine ⟨?_, fun hne => ?_, Iff.intro (fun hh => absurd hh hf)
      (fun hh => absurd hh hf)⟩
    · rw [hstored, if_neg hf, Vector3.neg_dot, Vector3.dot_comm]
      linarith
    · rw [hstored, if_neg hf, Vector3.neg_dot, Vector3.dot_comm]
      have : 0 < r.direction.dot n := lt_of_le_of_ne hge (Ne.symm hne)
      linarith

/-- Witness for claim C3 at a raw normal not perpendicular to the ray. -/
theorem claim3_witness :
    witnessRay.direction.dot ⟨0, 0, -1⟩ ≠ 0 ∧
      (Intersection.new witnessRay 1 (witnessRay.at 1) ⟨0, 0, -1⟩
        matGray).normal.dot witnessRay.direction < 0 := by
  have hne : witnessRay.direction.dot ⟨0, 0, -1⟩ ≠ 0 := by
    unfold witnessRay
    simp
  exact ⟨hne,
    (claim3_normal_orientation witnessRay 1 (witnessRay.at 1) ⟨0, 0, -1⟩
      matGray).2.1 hne⟩

/-- The transport evaluator on the empty scene returns the background
gradient determined by the normalized vertical direction. -/
theorem compute_ray_color_empty (oracle : ℕ → RandSrc) (r : Ray)
    (depth : ℤ) (h : 0 < depth) :
    (HittableObjects.mk []).compute_ray_color oracle r depth =
      (1 - 0.5 * (r.direction.to_unit_vector.y + 1)) • Color.WHITE +
        (0.5 * (r.direction.to_unit_vector.y + 1)) • Color.mk 0.5 0.7 1 := by
  rw [HittableObjects.compute_ray_color, if_neg (not_le.mpr h)]
  have hmiss : (HittableObjects.mk []).hit r ⟨0, INFINITY⟩ = none := rfl
  rw [hmiss]

theorem up_unit_vector : (Vector3.mk 0 1 0).to_unit_vector = ⟨0, 1, 0⟩ := by
  unfold Vector3.to_unit_vector Vector3.norm
  have hl : (Vector3.mk 0 1 0).length_squared = 1 := by
    simp
  rw [hl, Real.sqrt_one]
  ext <;> simp

theorem down_unit_vector :
    (Vector3.mk 0 (-1) 0).to_unit_vector = ⟨0, -1, 0⟩ := by
  unfold Vector3.to_unit_vector Vector3.norm
  have hl : (Vector3.mk 0 (-1) 0).length_squared = 1 := by
    simp
  rw [hl, Real.sqrt_one]
  ext <;> simp

/-- Claim C8: on the empty scene and positive depth the transport evaluator
returns the vertical background gradient; a ray straight up yields the pure
sky blue color and a ray straight down yields pure white. -/
theorem claim8_background_gradient :
    (∀ (oracle : ℕ → RandSrc) (r : Ray) (depth : ℤ), 0 < depth →
      (HittableObjects.mk []).compute_ray_color oracle r depth =
        (1 - 0.5 * (r.direction.to_unit_vector.y + 1)) • Color.WHITE +
          (0.5 * (r.direction.to_unit_vector.y + 1)) •
            Color.mk 0.5 0.7 1) ∧
    (∀ (oracle : ℕ → RandSrc) (p : Point3) (depth : ℤ), 0 < depth →
      (HittableObjects.mk []).compute_ray_color oracle ⟨p, ⟨0, 1, 0⟩⟩ depth =
        Color.mk 0.5 0.7 1) ∧
    (∀ (oracle : ℕ → RandSrc) (p : Point3) (depth : ℤ), 0 < depth →
      (HittableObjects.mk []).compute_ray_color oracle ⟨p, ⟨0, -1, 0⟩⟩
        depth = Color.mk 1 1 1) := by
  refine ⟨compute_ray_color_empty, ?_, ?_⟩
  · intro oracle p depth h
    rw [compute_ray_color_empty oracle ⟨p, ⟨0, 1, 0⟩⟩ depth h]
    show (1 - 0.5 * ((Vector3.mk 0 1 0).to_unit_vector.y + 1)) •
        Color.WHITE + (0.5 * ((Vector3.mk 0 1 0).to_unit_vector.y + 1)) •
          Color.mk 0.5 0.7 1 = Color.mk 0.5 0.7 1
    rw [up_unit_vector]
    unfold Color.WHITE
    ext <;> simp <;> norm_num
  · intro oracle p depth h
    rw [compute_ray_color_empty oracle ⟨p, ⟨0, -1, 0⟩⟩ depth h]
    show (1 - 0.5 * ((Vector3.mk 0 (-1) 0).to_unit_vector.y + 1)) •
        Color.WHITE + (0.5 * ((Vector3.mk 0 (-1) 0).to_unit_vector.y + 1)) •
          Color.mk 0.5 0.7 1 = Color.mk 1 1 1
    rw [down_unit_vector]
    unfold Color.WHITE
    ext <;> simp

/-- Witness for claim C8: straight-up ray at depth 1 on the empty scene. -/
theorem claim8_witness :
    (0 : ℤ) < 1 ∧
      (HittableObjects.mk []).compute_ray_color (fun _ => zeroSrc)
        ⟨⟨0, 0, 0⟩, ⟨0, 1, 0⟩⟩ 1 = Color.mk 0.5 0.7 1 :=
  ⟨by norm_num,
    claim8_background_gradient.2.1 (fun _ => zeroSrc) ⟨0, 0, 0⟩ 1
      (by norm_num)⟩

theorem clamp_pixel_le (x : ℝ) : clamp_pixel x ≤ 255 := by
  unfold clamp_pixel
  split_ifs with h1 h2
  · exact le_refl 255
  · exact Nat.zero_le 255
  · have hx1 : x ≤ 1 := not_lt.mp h1
    have hx0 : 0 ≤ x := not_lt.mp h2
    have hr : round ((255 : ℝ) * x) ≤ 255 := by
      rw [round_eq, Int.floor_le_iff]
      push_cast
      nlinarith
    omega

theorem clamp_pixel_one : clamp_pixel 1 = 255 := by
  unfold clamp_pixel
  rw [if_neg (lt_irrefl 1), if_neg (by norm_num : ¬(1 : ℝ) < 0)]
  norm_num
  rfl

/-- Claim C9: pixel conversion produces byte values at most 255 for every
finite input, with out-of-range components saturating to 255 or 0; and
averaging the accumulated color of value the sample count in each channel
saturates to the white byte triple. -/
theorem claim9_pixel_saturation :
    (∀ x : ℝ, clamp_pixel x ≤ 255) ∧
    (∀ x : ℝ, 1 < x → clamp_pixel x = 255) ∧
    (∀ x : ℝ, x < 0 → clamp_pixel x = 0) ∧
    (∀ c : Color, c.to_pixel.1 ≤ 255 ∧ c.to_pixel.2.1 ≤ 255 ∧
      c.to_pixel.2.2 ≤ 255) ∧
    (∀ (c : Color) (n : ℕ), (c.sample_pixel n).1 ≤ 255 ∧
      (c.sample_pixel n).2.1 ≤ 255 ∧ (c.sample_pixel n).2.2 ≤ 255) ∧
    (∀ n : ℕ, 0 < n →
      Color.sample_pixel ⟨(n : ℝ), (n : ℝ), (n : ℝ)⟩ n = (255, 255, 255)) := by
  refine ⟨clamp_pixel_le, ?_, ?_, ?_, ?_, ?_⟩
  · intro x hx
    unfold clamp_pixel
    rw [if_pos hx]
  · intro x hx
    unfold clamp_pixel
    rw [if_neg (by linarith : ¬x > 1), if_pos hx]
  · intro c
    exact ⟨clamp_pixel_le _, clamp_pixel_le _, clamp_pixel_le _⟩
  · intro c n
    exact ⟨clamp_pixel_le _, clamp_pixel_le _, clamp_pixel_le _⟩
  · intro n hn
    unfold Color.sample_pixel
    have hs : (n : ℝ) * (1 / (n : ℝ)) = 1 := by
      field_simp
    show (clamp_pixel (Real.sqrt ((n : ℝ) * (1 / (n : ℝ)))),
      clamp_pixel (Real.sqrt ((n : ℝ) * (1 / (n : ℝ)))),
      clamp_pixel (Real.sqrt ((n : ℝ) * (1 / (n : ℝ))))) = (255, 255, 255)
    rw [hs, Real.sqrt_one, clamp_pixel_one]

/-- Witness for claim C9 at sample count 4. -/
theorem claim9_witness :
    (0 : ℕ) < 4 ∧
      Color.sample_pixel ⟨((4 : ℕ) : ℝ), ((4 : ℕ) : ℝ), ((4 : ℕ) : ℝ)⟩ 4 =
        (255, 255, 255) :=
  ⟨by norm_num, claim9_pixel_saturation.2.2.2.2.2 4 (by norm_num)⟩

/-- Claim C10: under the generator contract (three unit-interval draws per
attempt), every vector returned by the rejection sampler has squared length
strictly below 1 and all three components in the unit interval, hence lies
in the nonnegative octant of the unit ball; consequently a nonnegative
fuzz multiple of it has nonnegative components. -/
theorem claim10_unit_sphere_octant :
    ∀ (fuel : ℕ) (gen : ℕ → ℝ × ℝ × ℝ),
      (∀ k, 0 ≤ (gen k).1 ∧ (gen k).1 < 1 ∧ 0 ≤ (gen k).2.1 ∧
        (gen k).2.1 < 1 ∧ 0 ≤ (gen k).2.2 ∧ (gen k).2.2 < 1) →
      ∀ v : Vector3, random_point_in_unit_sphere gen fuel = some v →
        v.length_squared < 1 ∧
        (0 ≤ v.x ∧ v.x < 1) ∧ (0 ≤ v.y ∧ v.y < 1) ∧ (0 ≤ v.z ∧ v.z < 1) ∧
        (∀ fuzz : ℝ, 0 ≤ fuzz →
          0 ≤ (fuzz • v).x ∧ 0 ≤ (fuzz • v).y ∧ 0 ≤ (fuzz • v).z) := by
  intro fuel
  induction fuel with
  | zero =>
    intro gen _ v h
    exact Option.noConfusion h
  | succ m ih =>
    intro gen hgen v h
    simp only [random_point_in_unit_sphere] at h
    by_cases hge :
        (Vector3.mk (gen 0).1 (gen 0).2.1 (gen 0).2.2).length_squared ≥ 1
    · rw [if_pos hge] at h
      exact ih (fun k => gen (k + 1)) (fun k => hgen (k + 1)) v h
    · rw [if_neg hge] at h
      have hv : v = ⟨(gen 0).1, (gen 0).2.1, (gen 0).2.2⟩ :=
        (Option.some.inj h).symm
      obtain ⟨h1, h2, h3, h4, h5, h6⟩ := hgen 0
      subst hv
      refine ⟨not_le.mp hge, ⟨h1, h2⟩, ⟨h3, h4⟩, ⟨h5, h6⟩, ?_⟩
      intro fuzz hf
      refine ⟨?_, ?_, ?_⟩ <;> simp <;> positivity

/-- Witness for claim C10 on a constant generator stream. -/
theorem claim10_witness :
    (∀ k, 0 ≤ (halfGen k).1 ∧ (halfGen k).1 < 1 ∧ 0 ≤ (halfGen k).2.1 ∧
        (halfGen k).2.1 < 1 ∧ 0 ≤ (halfGen k).2.2 ∧ (halfGen k).2.2 < 1) ∧
      random_point_in_unit_sphere halfGen 1 =
        some ⟨1 / 2, 1 / 2, 1 / 2⟩ ∧
      (Vector3.mk (1 / 2) (1 / 2) (1 / 2)).length_squared < 1 ∧
      0 ≤ ((2 : ℝ) • Vector3.mk (1 / 2) (1 / 2) (1 / 2)).x := by
  have hgen : ∀ k, 0 ≤ (halfGen k).1 ∧ (halfGen k).1 < 1 ∧
      0 ≤ (halfGen k).2.1 ∧ (halfGen k).2.1 < 1 ∧ 0 ≤ (halfGen k).2.2 ∧
      (halfGen k).2.2 < 1 := by
    intro k
    unfold halfGen
    norm_num
  have heval : random_point_in_unit_sphere halfGen 1 =
      some ⟨1 / 2, 1 / 2, 1 / 2⟩ := by
    simp only [random_point_in_unit_sphere]
    rw [if_neg]
    · rfl
    · unfold halfGen
      simp
      norm_num
  obtain ⟨hlen, _, _, _, hfz⟩ :=
    claim10_unit_sphere_octant 1 halfGen hgen ⟨1 / 2, 1 / 2, 1 / 2⟩ heval
  exact ⟨hgen, heval, hlen, (hfz 2 (by norm_num)).1⟩

/-- Snell refraction with ratio 1 between unit vectors returns the incident
direction unchanged when the incidence cosine is nonnegative. -/
theorem refract_ratio_one {d n : Vector3} (hd : d.length_squared = 1)
    (hn : n.length_squared = 1) (hcos : 0 ≤ (-d).dot n) :
    d.refract n 1 = d := by
  simp only [Vector3.refract]
  set c := (-d).dot n with hc
  have hdn : d.dot n = -c := by
    rw [hc, Vector3.neg_dot]
    ring
  have hper : (1 : ℝ) • (d + c • n) = d + c • n := by
    ext <;> simp
  have hd2 : d.x * d.x + d.y * d.y + d.z * d.z = 1 := hd
  have hn2 : n.x * n.x + n.y * n.y + n.z * n.z = 1 := hn
  have hdn2 : d.x * n.x + d.y * n.y + d.z * n.z = -c := hdn
  have hls : (d + c • n).length_squared = 1 - c * c := by
    simp only [Vector3.add_def, Vector3.smul_def, Vector3.length_squared_mk]
    linear_combination hd2 + c * c * hn2 + 2 * c * hdn2
  rw [hper, hls]
  have habs : |1 - (1 - c * c)| = c * c := by
    rw [show (1 : ℝ) - (1 - c * c) = c * c by ring]
    exact abs_of_nonneg (mul_self_nonneg c)
  rw [habs, Real.sqrt_mul_self hcos]
  ext <;> simp

open Classical in
/-- Claim C5 (amended): dielectric scattering always returns a value; with
index of refraction 1 the refract branch (taken whenever the Schlick
reflectance does not exceed the uniform draw) passes the unit incident
direction through unchanged, but the reflect branch can still be chosen by
the random draw. -/
theorem claim5_matched_medium (rs : RandSrc) (r : Ray) (i : Intersection)
    (att : Color) (ior : ℝ) :
    (∃ out, Material.scatter (Material.Dielectric ior att) rs r i =
      some out) ∧
    (i.normal.length_squared = 1 →
      r.direction.to_unit_vector.length_squared = 1 →
      0 ≤ i.normal.dot (-(r.direction.to_unit_vector)) →
      dielectric_reflectance
          (min (i.normal.dot (-(r.direction.to_unit_vector))) 1) 1 ≤
        rs.uniform →
      Material.scatter (Material.Dielectric 1 att) rs r i =
        some (⟨i.p, r.direction.to_unit_vector⟩, att)) := by
  constructor
  · exact ⟨_, rfl⟩
  · intro hn hd hcos hrefl
    simp only [Material.scatter]
    have hratio : (if i.ray_hit_outer_surface then 1 / (1 : ℝ) else 1) = 1 := by
      split_ifs <;> norm_num
    rw [hratio]
    set d := r.direction.to_unit_vector with hd_def
    set c := i.normal.dot (-d) with hc_def
    have hle1 : c ≤ 1 := by
      have hnn := Vector3.length_squared_nonneg (i.normal + d)
      have hexp : (i.normal + d).length_squared =
          i.normal.length_squared + 2 * i.normal.dot d + d.length_squared := by
        simp only [Vector3.add_def, Vector3.length_squared_mk,
          Vector3.length_squared, Vector3.dot]
        ring
      have hcd : c = -(i.normal.dot d) := by
        rw [hc_def, Vector3.dot_comm, Vector3.neg_dot, Vector3.dot_comm]
      rw [hexp, hn, hd] at hnn
      rw [hcd]
      linarith
    rw [min_eq_left hle1] at hrefl ⊢
    have hsin : Real.sqrt (1 - c * c) ≤ 1 := by
      have hupper : (1 : ℝ) - c * c ≤ 1 := by
        nlinarith [mul_self_nonneg c]
      calc Real.sqrt (1 - c * c) ≤ Real.sqrt 1 := Real.sqrt_le_sqrt hupper
        _ = 1 := Real.sqrt_one
    have hcond : ¬(1 * Real.sqrt (1 - c * c) > 1 ∨
        dielectric_reflectance c 1 > rs.uniform) := by
      rintro (hx | hx)
      · rw [one_mul] at hx
        exact absurd hx (not_lt.mpr hsin)
      · exact absurd hx (not_lt.mpr hrefl)
    rw [if_neg hcond]
    have hcos' : 0 ≤ (-d).dot i.normal := by
      rw [Vector3.dot_comm]
      exact hcos
    rw [refract_ratio_one hd hn hcos']

theorem glass_unit_vector :
    glassRay.direction.to_unit_vector = ⟨0.6, -0.8, 0⟩ := by
  show (Vector3.mk 0.6 (-0.8) 0).to_unit_vector = _
  unfold Vector3.to_unit_vector Vector3.norm
  have hl : (Vector3.mk 0.6 (-0.8) 0).length_squared = 1 := by
    simp
    norm_num
  rw [hl, Real.sqrt_one]
  ext <;> simp

open Classical in
/-- Concrete evaluation of dielectric scattering in the reflect branch: a
uniform draw below the Schlick reflectance makes the matched-medium
dielectric reflect instead of passing straight through. -/
theorem glass_scatter_reflect :
    Material.scatter (Material.Dielectric 1 Color.WHITE) reflectSrc glassRay
        glassInter = some (⟨glassInter.p, ⟨0.6, 0.8, 0⟩⟩, Color.WHITE) := by
  simp only [Material.scatter]
  have hfront : glassInter.ray_hit_outer_surface := trivial
  rw [if_pos hfront]
  have hone : (1 : ℝ) / 1 = 1 := by norm_num
  rw [hone]
  rw [glass_unit_vector]
  rw [show glassInter.normal = ⟨0, 1, 0⟩ from rfl]
  have hdot : (Vector3.mk 0 1 0).dot (-(⟨0.6, -0.8, 0⟩ : Vector3)) = 0.8 := by
    simp
  rw [hdot]
  rw [min_eq_left (by norm_num : (0.8 : ℝ) ≤ 1)]
  have hcondpos : 1 * Real.sqrt (1 - 0.8 * 0.8) > 1 ∨
      dielectric_reflectance 0.8 1 > reflectSrc.uniform := by
    right
    rw [show reflectSrc.uniform = 0.0001 from rfl]
    unfold dielectric_reflectance
    norm_num
  rw [if_pos hcondpos]
  have hr : (⟨0.6, -0.8, 0⟩ : Vector3).reflect ⟨0, 1, 0⟩ = ⟨0.6, 0.8, 0⟩ := by
    unfold Vector3.reflect
    ext <;> simp
    norm_num
  rw [hr]

/-- Counterexample to claim C5 as stated: at index of refraction 1 the
Schlick coin can still choose reflection, so the scattered direction is not
always the unit incident direction. -/
theorem claim5_counterexample :
    Material.scatter (Material.Dielectric 1 Color.WHITE) reflectSrc glassRay
        glassInter = some (⟨glassInter.p, ⟨0.6, 0.8, 0⟩⟩, Color.WHITE) ∧
      glassRay.direction.to_unit_vector = ⟨0.6, -0.8, 0⟩ ∧
      Vector3.mk 0.6 0.8 0 ≠ ⟨0.6, -0.8, 0⟩ := by
  refine ⟨glass_scatter_reflect, glass_unit_vector, ?_⟩
  intro h
  have hy : (0.8 : ℝ) = -0.8 := congrArg Vector3.y h
  norm_num at hy

/-- Witness for claim C5: a uniform draw above the reflectance takes the
refract branch and the direction passes through unchanged. -/
theorem claim5_witness :
    glassInter.normal.length_squared = 1 ∧
      glassRay.direction.to_unit_vector.length_squared = 1 ∧
      0 ≤ glassInter.normal.dot (-(glassRay.direction.to_unit_vector)) ∧
      dielectric_reflectance
          (min (glassInter.normal.dot
            (-(glassRay.direction.to_unit_vector))) 1) 1 ≤
        refractSrc.uniform ∧
      Material.scatter (Material.Dielectric 1 Color.WHITE) refractSrc
          glassRay glassInter =
        some (⟨glassInter.p, glassRay.direction.to_unit_vector⟩,
          Color.WHITE) := by
  have hu := glass_unit_vector
  have hn : glassInter.normal.length_squared = 1 := by
    show (Vector3.mk 0 1 0).length_squared = 1
    simp
  have hd : glassRay.direction.to_unit_vector.length_squared = 1 := by
    rw [hu]
    simp
    norm_num
  have hdot : glassInter.normal.dot (-(glassRay.direction.to_unit_vector)) =
      0.8 := by
    rw [hu]
    show (Vector3.mk 0 1 0).dot (-(⟨0.6, -0.8, 0⟩ : Vector3)) = 0.8
    simp
  have hcos : 0 ≤ glassInter.normal.dot
      (-(glassRay.direction.to_unit_vector)) := by
    rw [hdot]
    norm_num
  have hrefl : dielectric_reflectance
      (min (glassInter.normal.dot
        (-(glassRay.direction.to_unit_vector))) 1) 1 ≤
      refractSrc.uniform := by
    rw [hdot, min_eq_left (by norm_num : (0.8 : ℝ) ≤ 1),
      show refractSrc.uniform = 0.5 from rfl]
    unfold dielectric_reflectance
    norm_num
  exact ⟨hn, hd, hcos, hrefl,
    (claim5_matched_medium refractSrc glassRay glassInter Color.WHITE 1).2
      hn hd hcos hrefl⟩

theorem metal_reflect_eval :
    (metalRay.direction.to_unit_vector).reflect metalInter.normal =
      ⟨Real.sqrt 2 / 2, Real.sqrt 2 / 2, 0⟩ := by
  have hs2 : Real.sqrt 2 * Real.sqrt 2 = 2 :=
    Real.mul_self_sqrt (by norm_num)
  have hs2ne : Real.sqrt 2 ≠ 0 := by
    intro h
    rw [h] at hs2
    norm_num at hs2
  have hu : metalRay.direction.to_unit_vector =
      ⟨Real.sqrt 2 / 2, -(Real.sqrt 2 / 2), 0⟩ := by
    show (Vector3.mk 1 (-1) 0).to_unit_vector = _
    unfold Vector3.to_unit_vector Vector3.norm
    have hl : (Vector3.mk 1 (-1) 0).length_squared = 2 := by
      simp
      norm_num
    rw [hl]
    ext <;> field_simp
  rw [hu]
  rw [show metalInter.normal = ⟨0, 1, 0⟩ from rfl]
  unfold Vector3.reflect
  ext <;> simp
  ring

open Classical in
/-- Concrete evaluation of metal scattering with fuzz zero at the claim-6
configuration. -/
theorem metal_scatter_eval (rs : RandSrc) :
    Material.scatter (Material.Metal ⟨0.7, 0.6, 0.5⟩ 0) rs metalRay
        metalInter =
      some (⟨metalInter.p, ⟨Real.sqrt 2 / 2, Real.sqrt 2 / 2, 0⟩⟩,
        ⟨0.7, 0.6, 0.5⟩) := by
  simp only [Material.scatter]
  have hdir : (metalRay.direction.to_unit_vector).reflect metalInter.normal +
      (0 : ℝ) • rs.inSphere = ⟨Real.sqrt 2 / 2, Real.sqrt 2 / 2, 0⟩ := by
    rw [metal_reflect_eval]
    ext <;> simp
  rw [hdir]
  have hpos : (Vector3.mk (Real.sqrt 2 / 2) (Real.sqrt 2 / 2) 0).dot
      metalInter.normal > 0 := by
    rw [show metalInter.normal = ⟨0, 1, 0⟩ from rfl]
    simp
  rw [if_pos hpos]

/-- Counterexample to claim C6 as stated: the scattered direction is the
reflection of the normalized incident direction, not the unnormalized
reflection 1, 1, 0. -/
theorem claim6_counterexample :
    Material.scatter (Material.Metal ⟨0.7, 0.6, 0.5⟩ 0) zeroSrc metalRay
        metalInter =
      some (⟨metalInter.p, ⟨Real.sqrt 2 / 2, Real.sqrt 2 / 2, 0⟩⟩,
        ⟨0.7, 0.6, 0.5⟩) ∧
      Vector3.mk (Real.sqrt 2 / 2) (Real.sqrt 2 / 2) 0 ≠ ⟨1, 1, 0⟩ := by
  refine ⟨metal_scatter_eval zeroSrc, ?_⟩
  intro h
  have hx : Real.sqrt 2 / 2 = 1 := congrArg Vector3.x h
  have h2 : Real.sqrt 2 = 2 := by
    linarith
  have hsq := Real.mul_self_sqrt (show (0 : ℝ) ≤ 2 by norm_num)
  rw [h2] at hsq
  norm_num at hsq

/-- Claim C6 (amended): metal scattering with fuzz 0 is deterministic (the
random perturbation is multiplied by zero); at incident direction 1, -1, 0
and normal 0, 1, 0 it returns the reflection of the unit incident
direction, which is the unit-length positive multiple of 1, 1, 0, with
attenuation equal to the albedo. -/
theorem claim6_metal_fuzz_zero :
    (∀ (rs rs' : RandSrc) (alb : Color) (r : Ray) (i : Intersection),
      Material.scatter (Material.Metal alb 0) rs r i =
        Material.scatter (Material.Metal alb 0) rs' r i) ∧
    (∀ rs : RandSrc,
      Material.scatter (Material.Metal ⟨0.7, 0.6, 0.5⟩ 0) rs metalRay
          metalInter =
        some (⟨metalInter.p, ⟨Real.sqrt 2 / 2, Real.sqrt 2 / 2, 0⟩⟩,
          ⟨0.7, 0.6, 0.5⟩)) ∧
    (metalRay.direction.to_unit_vector).reflect metalInter.normal =
      ⟨Real.sqrt 2 / 2, Real.sqrt 2 / 2, 0⟩ := by
  refine ⟨?_, metal_scatter_eval, metal_reflect_eval⟩
  intro rs rs' alb r i
  simp only [Material.scatter]
  have hz : ∀ v : Vector3,
      (r.direction.to_unit_vector).reflect i.normal + (0 : ℝ) • v =
        (r.direction.to_unit_vector).reflect i.normal := by
    intro v
    ext <;> simp
  rw [hz rs.inSphere, hz rs'.inSphere]

theorem acne_hit :
    Shape.hit (Shape.sphere acneSphere) acneRay ⟨0, INFINITY⟩ =
      some interAcne := by
  show acneSphere.hit acneRay ⟨0, INFINITY⟩ = some interAcne
  have hd : sphereDisc acneSphere acneRay = 1 := by
    unfold sphereDisc sphereHalfB sphereA sphereC acneSphere acneRay
    simp
  have ht1 : sphereT1 acneSphere acneRay = 1 / 2000 := by
    unfold sphereT1
    rw [hd, Real.sqrt_one]
    unfold sphereHalfB sphereA acneSphere acneRay
    simp
    norm_num
  have h0 : sphereDisc acneSphere acneRay > 0 := by
    rw [hd]
    norm_num
  have hs : (Interval.mk 0 INFINITY).surrounds (sphereT1 acneSphere acneRay) := by
    rw [ht1, surrounds_zero_top]
    norm_num
  rw [Sphere.hit_t1 h0 hs, ht1]
  rfl

/-- Claim C4, failing-input theorem: the transport evaluator of
shapes/mod.rs queries the scene on the interval from 0 to infinity, so a
hit at parameter 1/2000, below the epsilon 1e-3 that the claim requires to
be excluded, is accepted and drives scattering: the returned color is the
attenuated recursion result (black at the exhausted depth), not the
background gradient a miss would produce. -/
theorem claim4_acne_bug :
    HittableObjects.hit ⟨[Shape.sphere acneSphere]⟩ acneRay ⟨0, INFINITY⟩ =
        some interAcne ∧
      interAcne.t = 1 / 2000 ∧
      interAcne.t ≤ 1 / 1000 ∧
      0 < interAcne.t ∧
      (HittableObjects.mk [Shape.sphere acneSphere]).compute_ray_color
        (fun _ => zeroSrc) acneRay 1 = Color.BLACK := by
  have hhit := acne_hit
  have hagg : HittableObjects.hit ⟨[Shape.sphere acneSphere]⟩ acneRay
      ⟨0, INFINITY⟩ = some interAcne := by
    rw [HittableObjects.hit_eq_bestHit, bestHit_cons_some_none hhit]
    rfl
  have ht : interAcne.t = 1 / 2000 := rfl
  refine ⟨hagg, ht, ?_, ?_, ?_⟩
  · rw [ht]
    norm_num
  · rw [ht]
    norm_num
  · rw [HittableObjects.compute_ray_color,
      if_neg (by norm_num : ¬(1 : ℤ) ≤ 0), hagg]
    rcases hsc : Material.scatter interAcne.material zeroSrc acneRay
        interAcne with _ | ⟨sray, att⟩
    · simp only [hsc]
    · simp only [hsc]
      rw [compute_ray_color_black_of_nonpos _ _ _ _
        (by norm_num : (1 : ℤ) - 1 ≤ 0)]
      ext <;> simp [Color.BLACK]

end RayTracing
